import Mathlib

/-
  Verification of the lcov-native coverage reconciliation engine.

  Shallow embedding of the TypeScript sources:
    - src/src/extension.ts   (class LcovParser: parse, convertToFileCoverage,
      loadDetailedCoverageForRecord, getFileRecord, loadDetailedCoverage)
    - src/src/coverageService.ts (calculateCoverageStats, loadCoverage)

  JavaScript numbers in these records are integral throughout, so they are
  modelled as Int.  The filesystem is modelled as a pure existence predicate
  (String -> Bool); fs.existsSync caching is semantically transparent under a
  pure predicate and is therefore not modelled separately.  JS Map is modelled
  as an insertion-ordered association list where set updates in place.
  JavaScript string operations used by the source (String.prototype.endsWith,
  replace of all backslashes, path.isAbsolute, path.join, path.basename in
  their POSIX reading) are modelled as executable functions over the character
  data of Lean strings.
-/

/-! ## Data model (interfaces from src/src/extension.ts) -/

structure LcovBranchDetail where
  line : Int
  block : Int
  branch : Int
  taken : Int
deriving DecidableEq, Repr

structure LcovFunctionDetail where
  name : String
  line : Int
  hit : Int
deriving DecidableEq, Repr

structure LcovLineDetail where
  line : Int
  hit : Int
deriving DecidableEq, Repr

structure LcovLines where
  found : Int
  hit : Int
  details : Option (List LcovLineDetail)
deriving DecidableEq, Repr

structure LcovFunctions where
  found : Int
  hit : Int
  details : Option (List LcovFunctionDetail)
deriving DecidableEq, Repr

structure LcovBranches where
  found : Int
  hit : Int
  details : Option (List LcovBranchDetail)
deriving DecidableEq, Repr

structure LcovFileRecord where
  file : String
  lines : LcovLines
  functions : LcovFunctions
  branches : LcovBranches
deriving DecidableEq, Repr

/-! ## String and path operations (models of the JS operations the source uses) -/

/-- Model of JS endsWith over character data. -/
def strEndsWith (s suffix : String) : Bool :=
  suffix.data.reverse.isPrefixOf s.data.reverse

/-- Model of the regex replace of every backslash by a forward slash. -/
def normalizeSeparators (s : String) : String :=
  String.mk (s.data.map (fun c => if c == '\\' then '/' else c))

/-- Drop trailing slash characters. -/
def dropTrailingSlashes (s : String) : String :=
  String.mk ((s.data.reverse.dropWhile (fun c => c == '/')).reverse)

/-- Drop leading slash characters. -/
def dropLeadingSlashes (s : String) : String :=
  String.mk (s.data.dropWhile (fun c => c == '/'))

/-- POSIX model of path.isAbsolute. -/
def isAbsolute (p : String) : Bool :=
  match p.data with
  | [] => false
  | c :: _ => c == '/'

/-- POSIX model of path.join for two segments (no dot-segment normalization is
needed by any claim input). -/
def pathJoin (a b : String) : String :=
  if a = "" then b
  else if b = "" then a
  else dropTrailingSlashes a ++ "/" ++ dropLeadingSlashes b

/-- POSIX model of path.basename: the last path component, ignoring trailing
separators. -/
def basename (p : String) : String :=
  String.mk (((dropTrailingSlashes p).data.reverse.takeWhile (fun c => !(c == '/'))).reverse)

/-! ## Path resolution (loop body of LcovParser.convertToFileCoverage) -/

/-- The fixed list of conventional source directories probed by
convertToFileCoverage. -/
def commonDirs : List String := ["src", "lib", "app", "components"]

/-- The per-record resolution flow of convertToFileCoverage, translated from
the mutable resolvedFilePath and fileExists variables: each step is a pair
(resolvedFilePath, fileExists).  The existence cache around fs.existsSync is
transparent for a pure existence predicate. -/
def resolveFilePath (ex : String → Bool) (root file : String) : Option String :=
  let step1 : String × Bool := (file, isAbsolute file && ex file)
  let step2 : String × Bool :=
    if !step1.2 then
      (pathJoin root file, ex (pathJoin root file))
    else step1
  let step3 : String × Bool :=
    if !step2.2 then
      match commonDirs.find? (fun dir => ex (pathJoin (pathJoin root dir) (basename file))) with
      | some dir => (pathJoin (pathJoin root dir) (basename file), true)
      | none => step2
    else step2
  if step3.2 then some step3.1 else none

/-- The strategy ladder exactly as the specification words it: absolute
as-is, then join onto the workspace root, then the basename probe under the
conventional directories, else NotFound.  Stated from the spec wording for
the refinement claim C4 and compared with resolveFilePath. -/
def resolveFilePathSpec (ex : String → Bool) (root file : String) : Option String :=
  if isAbsolute file && ex file then some file
  else if ex (pathJoin root file) then some (pathJoin root file)
  else
    match commonDirs.find? (fun dir => ex (pathJoin (pathJoin root dir) (basename file))) with
    | some dir => some (pathJoin (pathJoin root dir) (basename file))
    | none => none

/-! ## Aggregator (CoverageService.calculateCoverageStats) -/

/-- The totals computed by calculateCoverageStats.  The percentage string
produced by toFixed is display only and not needed by any claim. -/
structure CoverageStats where
  totalLines : Int
  coveredLines : Int
deriving DecidableEq, Repr

/-- calculateCoverageStats from src/src/coverageService.ts: one pass over the
records it is handed, accumulating lines.found into totalLines and lines.hit
into coveredLines. -/
def calculateCoverageStats (records : List LcovFileRecord) : CoverageStats :=
  records.foldl
    (fun acc r => ⟨acc.totalLines + r.lines.found, acc.coveredLines + r.lines.hit⟩)
    ⟨0, 0⟩

/-! ## Helper lemmas -/

theorem calculateCoverageStats_foldl (records : List LcovFileRecord) (a b : Int) :
    records.foldl
      (fun acc r => (⟨acc.totalLines + r.lines.found, acc.coveredLines + r.lines.hit⟩ : CoverageStats))
      ⟨a, b⟩ =
    ⟨a + (records.map (fun r => r.lines.found)).sum,
     b + (records.map (fun r => r.lines.hit)).sum⟩ := by
  induction records generalizing a b with
  | nil => simp
  | cons r rs ih =>
    simp only [List.foldl_cons, List.map_cons, List.sum_cons, ih,
      CoverageStats.mk.injEq]
    constructor <;> ring

/-! ## Concrete inputs used by counterexamples and witnesses -/

/-- An existence predicate under which no path exists. -/
def exNone : String → Bool := fun _ => false

/-- A record whose reported path resolves nowhere, with nonzero line totals. -/
def recC1 : LcovFileRecord :=
  ⟨"/missing/util.ts", ⟨1, 1, none⟩, ⟨0, 0, none⟩, ⟨0, 0, none⟩⟩

/-- A record with lines.found = 0 but lines.hit = 5. -/
def recC3 : LcovFileRecord :=
  ⟨"a.ts", ⟨0, 5, none⟩, ⟨0, 0, none⟩, ⟨0, 0, none⟩⟩

/-- A record with lines.found = 0 and lines.hit = 7 for the C3 witness. -/
def recW3 : LcovFileRecord :=
  ⟨"b.ts", ⟨0, 7, none⟩, ⟨0, 0, none⟩, ⟨0, 0, none⟩⟩

/-! ## Claim C1 -/

/-- Claim C1, counterexample: the record recC1 does not resolve under the
empty filesystem, yet calculateCoverageStats still counts its lines.found and
lines.hit, so the totals differ from the totals over exactly the resolved
records (which are none here), refuting the claim that a record whose path
cannot be resolved contributes nothing to either total. -/
theorem C1_cex :
    resolveFilePath exNone "/ws" recC1.file = none ∧
    calculateCoverageStats [recC1] ≠
      calculateCoverageStats
        ([recC1].filter (fun r => (resolveFilePath exNone "/ws" r.file).isSome)) := by
  decide

/-- Claim C1, amended: the totals of calculateCoverageStats are the sums of
lines.found and lines.hit over all records passed to it; loadCoverage passes
the full parse output, before any path resolution happens, so records whose
paths later fail to resolve contribute their counters as well. -/
theorem C1_totals (records : List LcovFileRecord) :
    (calculateCoverageStats records).totalLines
        = (records.map (fun r => r.lines.found)).sum ∧
    (calculateCoverageStats records).coveredLines
        = (records.map (fun r => r.lines.hit)).sum := by
  unfold calculateCoverageStats
  rw [calculateCoverageStats_foldl]
  constructor <;> simp

/-! ## Claim C3 -/

/-- Claim C3, counterexample: recC3 has lines.found = 0 and lines.hit = 5;
aggregating it changes coveredLines by 5, not 0, refuting the claim that a
record with found = 0 contributes 0 to both totals regardless of hit. -/
theorem C3_cex :
    recC3.lines.found = 0 ∧
    (calculateCoverageStats [recC3]).coveredLines ≠
      (calculateCoverageStats []).coveredLines := by
  decide

/-- Claim C3, amended: a record with lines.found = 0 contributes 0 to
totalLines and contributes its lines.hit to coveredLines; it contributes
nothing to both totals only when its hit is also 0. -/
theorem C3_zero_found (rec : LcovFileRecord) (records : List LcovFileRecord)
    (h : rec.lines.found = 0) :
    (calculateCoverageStats (rec :: records)).totalLines
        = (calculateCoverageStats records).totalLines ∧
    (calculateCoverageStats (rec :: records)).coveredLines
        = rec.lines.hit + (calculateCoverageStats records).coveredLines := by
  unfold calculateCoverageStats
  simp only [List.foldl_cons]
  rw [calculateCoverageStats_foldl, calculateCoverageStats_foldl]
  constructor <;> dsimp only <;> omega

/-- Witness for C3_zero_found at the concrete record recW3. -/
theorem C3_zero_found_witness :
    (calculateCoverageStats [recW3]).totalLines
        = (calculateCoverageStats []).totalLines ∧
    (calculateCoverageStats [recW3]).coveredLines
        = recW3.lines.hit + (calculateCoverageStats []).coveredLines :=
  C3_zero_found recW3 [] (by decide)

/-! ## Claim C4 -/

/-- Claim C4: the per-record resolution flow of convertToFileCoverage is the
strict priority ladder of the specification: absolute existing path as-is,
else the workspace join if it exists, else the first conventional directory
containing the basename, else NotFound, stopping at the first success. -/
theorem C4_resolver_priority (ex : String → Bool) (root file : String) :
    resolveFilePath ex root file = resolveFilePathSpec ex root file := by
  unfold resolveFilePath resolveFilePathSpec
  by_cases h1 : (isAbsolute file && ex file) = true
  · simp [h1]
  · simp only [Bool.not_eq_true] at h1
    simp only [h1]
    by_cases h2 : ex (pathJoin root file) = true
    · simp [h2]
    · simp only [Bool.not_eq_true] at h2
      simp only [h2]
      cases hf : commonDirs.find? (fun dir => ex (pathJoin (pathJoin root dir) (basename file))) with
      | none => simp [hf]
      | some dir => simp [hf]

/-! ## Uri, FileCoverage and the record store (LcovParser state) -/

/-- Model of a vscode.Uri as the engine uses it: toString is the map key and
fsPath is the path used for fallback matching.  Uri.file wraps a filesystem
path. -/
structure Uri where
  fsPath : String
deriving DecidableEq, Repr

def Uri.file (p : String) : Uri := ⟨p⟩

/-- Model of uri.toString for file uris. -/
def uriToString (u : Uri) : String := "file://" ++ u.fsPath

structure CoverageCount where
  covered : Int
  total : Int
deriving DecidableEq, Repr

/-- Summary-only vscode.FileCoverage as built by convertToFileCoverage. -/
structure FileCoverage where
  uri : Uri
  statementCoverage : CoverageCount
  branchCoverage : Option CoverageCount
  declarationCoverage : Option CoverageCount
deriving DecidableEq, Repr

/-- JS Map get: first entry with the key (keys are unique under mapSet). -/
def mapGet {α : Type} (m : List (String × α)) (k : String) : Option α :=
  (m.find? (fun kv => kv.1 == k)).map (fun kv => kv.2)

/-- JS Map set: update in place when the key is present, else append at the
end, preserving insertion order. -/
def mapSet {α : Type} (m : List (String × α)) (k : String) (v : α) : List (String × α) :=
  match m with
  | [] => [(k, v)]
  | kv :: rest => if kv.1 == k then (k, v) :: rest else kv :: mapSet rest k v

/-- The two maps an LcovParser instance owns. -/
structure ParserState where
  fileRecordMap : List (String × LcovFileRecord)
  fileCoverageInstanceMap : List (String × FileCoverage)
deriving DecidableEq, Repr

/-- Body of the loop of convertToFileCoverage for one record: resolve the
reported path, skip the record when unresolved, otherwise store it under the
uri key and emit the summary FileCoverage. -/
def convertStep (ex : String → Bool) (root : String)
    (acc : List FileCoverage × ParserState) (record : LcovFileRecord) :
    List FileCoverage × ParserState :=
  match resolveFilePath ex root record.file with
  | none => acc
  | some resolved =>
    let uri := Uri.file resolved
    let key := uriToString uri
    let fc : FileCoverage :=
      { uri := uri
        statementCoverage := ⟨record.lines.hit, record.lines.found⟩
        branchCoverage :=
          if record.branches.found > 0 then some ⟨record.branches.hit, record.branches.found⟩
          else none
        declarationCoverage :=
          if record.functions.found > 0 then some ⟨record.functions.hit, record.functions.found⟩
          else none }
    (acc.1 ++ [fc],
     ⟨mapSet acc.2.fileRecordMap key record,
      mapSet acc.2.fileCoverageInstanceMap key fc⟩)

/-- LcovParser.convertToFileCoverage: clears both maps, then folds the loop
body over the records. -/
def convertToFileCoverage (ex : String → Bool) (root : String)
    (records : List LcovFileRecord) : List FileCoverage × ParserState :=
  records.foldl (convertStep ex root) ([], ⟨[], []⟩)

/-- The four per-entry matching strategies of LcovParser.getFileRecord, in
source order: direct file path equality, suffix match, separator-normalized
suffix match, filename-only match.  The code returns the first entry for
which any of them holds. -/
def entryMatchStrategies (filePath : String) (v : LcovFileRecord) : Bool :=
  v.file == filePath
  || strEndsWith filePath v.file
  || strEndsWith (normalizeSeparators filePath) (normalizeSeparators v.file)
  || basename filePath == basename v.file

/-- LcovParser.getFileRecord: exact lookup by uri string, else scan the map
entries in insertion order for the first entry matched by any strategy,
caching a fallback hit under the exact uri string.  Returns the found record
and the possibly updated map. -/
def getFileRecord (m : List (String × LcovFileRecord)) (uri : Uri) :
    Option LcovFileRecord × List (String × LcovFileRecord) :=
  match mapGet m (uriToString uri) with
  | some record => (some record, m)
  | none =>
    match m.find? (fun kv => entryMatchStrategies uri.fsPath kv.2) with
    | some kv => (some kv.2, mapSet m (uriToString uri) kv.2)
    | none => (none, m)

/-! ## List and map helper lemmas -/

theorem find?_append {α : Type} (l₁ l₂ : List α) (p : α → Bool) :
    (l₁ ++ l₂).find? p =
      match l₁.find? p with
      | some a => some a
      | none => l₂.find? p := by
  induction l₁ with
  | nil => simp
  | cons a t ih =>
    by_cases h : p a = true
    · simp [List.find?_cons_of_pos, h]
    · simp only [Bool.not_eq_true] at h
      simp [List.find?_cons_of_neg, h, ih]

theorem find?_eq_head?_dropWhile {α : Type} (l : List α) (p : α → Bool) :
    l.find? p = (l.dropWhile (fun a => !p a)).head? := by
  induction l with
  | nil => simp
  | cons a t ih =>
    by_cases h : p a = true
    · simp [List.find?_cons_of_pos, List.dropWhile_cons, h]
    · simp only [Bool.not_eq_true] at h
      simp [List.find?_cons_of_neg, List.dropWhile_cons, h, ih]

theorem mapGet_cons {α : Type} (a : String × α) (t : List (String × α)) (k : String) :
    mapGet (a :: t) k = if (a.1 == k) = true then some a.2 else mapGet t k := by
  unfold mapGet
  rw [List.find?_cons]
  by_cases h : (a.1 == k) = true
  · rw [if_pos h]
    simp only [h, Option.map_some']
  · have hf : (a.1 == k) = false := by simpa using h
    rw [if_neg h]
    simp only [hf]

theorem mapGet_mapSet_self {α : Type} (m : List (String × α)) (k : String) (v : α) :
    mapGet (mapSet m k v) k = some v := by
  induction m with
  | nil =>
    unfold mapSet
    rw [mapGet_cons]
    simp
  | cons a t ih =>
    unfold mapSet
    by_cases ha : (a.1 == k) = true
    · rw [if_pos ha, mapGet_cons]
      simp
    · rw [if_neg ha, mapGet_cons, if_neg ha]
      exact ih

theorem mapGet_mapSet_ne {α : Type} (m : List (String × α)) (k k' : String) (v : α)
    (h : k' ≠ k) :
    mapGet (mapSet m k v) k' = mapGet m k' := by
  have hkk : ((k == k') = true) → False := by
    intro he
    have he' : k = k' := by simpa using he
    exact h he'.symm
  induction m with
  | nil =>
    unfold mapSet
    rw [mapGet_cons, if_neg hkk]
  | cons a t ih =>
    unfold mapSet
    by_cases ha : (a.1 == k) = true
    · have ha' : a.1 = k := by simpa using ha
      have hak : ((a.1 == k') = true) → False := by
        rw [ha']
        exact hkk
      rw [if_pos ha, mapGet_cons, if_neg hkk, mapGet_cons, if_neg hak]
    · rw [if_neg ha, mapGet_cons, mapGet_cons, ih]

/-- Whether one record, when resolved, is stored under the map key k. -/
def resolvesToKey (ex : String → Bool) (root : String) (r : LcovFileRecord) (k : String) : Bool :=
  match resolveFilePath ex root r.file with
  | some v => uriToString (Uri.file v) == k
  | none => false

theorem convert_foldl_mapGet (ex : String → Bool) (root : String)
    (records : List LcovFileRecord) (acc : List FileCoverage × ParserState) (k : String) :
    mapGet ((records.foldl (convertStep ex root) acc).2.fileRecordMap) k =
      match records.reverse.find? (fun r => resolvesToKey ex root r k) with
      | some r => some r
      | none => mapGet acc.2.fileRecordMap k := by
  induction records generalizing acc with
  | nil => simp
  | cons r rs ih =>
    simp only [List.foldl_cons, List.reverse_cons]
    rw [ih, find?_append]
    cases hrs : rs.reverse.find? (fun r => resolvesToKey ex root r k) with
    | some x => rfl
    | none =>
      simp only []
      rw [List.find?_cons]
      unfold convertStep resolvesToKey
      cases hres : resolveFilePath ex root r.file with
      | none => simp [hres]
      | some v =>
        simp only [hres]
        by_cases hk : (uriToString (Uri.file v) == k) = true
        · have hkeq : uriToString (Uri.file v) = k := by simpa using hk
          rw [hk]
          simp only []
          rw [hkeq, mapGet_mapSet_self]
        · have hkf : (uriToString (Uri.file v) == k) = false := by simpa using hk
          have hne : k ≠ uriToString (Uri.file v) := by
            intro he
            rw [he] at hkf
            simp at hkf
          rw [hkf]
          simp only [List.find?_nil]
          exact mapGet_mapSet_ne _ _ _ _ hne

/-! ## Claim C9 -/

/-- Claim C9: last-write-wins on duplicate identities.  If two records of one
conversion pass resolve to the same identity u, and no later record resolves
to that identity, then the record store maps the identity key to the second
record. -/
theorem C9_last_write_wins (ex : String → Bool) (root : String)
    (pre mid post : List LcovFileRecord) (r1 r2 : LcovFileRecord) (u : String)
    (h1 : resolveFilePath ex root r1.file = some u)
    (h2 : resolveFilePath ex root r2.file = some u)
    (hpost : ∀ r ∈ post, ∀ v, resolveFilePath ex root r.file = some v →
      uriToString (Uri.file v) ≠ uriToString (Uri.file u)) :
    mapGet ((convertToFileCoverage ex root (pre ++ r1 :: mid ++ r2 :: post)).2.fileRecordMap)
        (uriToString (Uri.file u)) = some r2 := by
  unfold convertToFileCoverage
  rw [convert_foldl_mapGet]
  have hpostnone : post.reverse.find?
      (fun r => resolvesToKey ex root r (uriToString (Uri.file u))) = none := by
    rw [List.find?_eq_none]
    intro r hr
    rw [List.mem_reverse] at hr
    unfold resolvesToKey
    cases hres : resolveFilePath ex root r.file with
    | none => simp
    | some v =>
      simp only []
      intro hbeq
      exact hpost r hr v hres (by simpa using hbeq)
  have hr2 : resolvesToKey ex root r2 (uriToString (Uri.file u)) = true := by
    unfold resolvesToKey
    rw [h2]
    simp
  simp only [List.reverse_append, List.reverse_cons, List.append_assoc]
  rw [find?_append, hpostnone]
  simp only [List.singleton_append, List.find?_cons, hr2]

/-- Existence predicate for the C9 witness: only /ws/a.ts exists. -/
def exW9 : String → Bool := fun s => s == "/ws/a.ts"

/-- First record of the C9 witness (0 of 2 lines hit). -/
def recW9a : LcovFileRecord := ⟨"a.ts", ⟨2, 0, none⟩, ⟨0, 0, none⟩, ⟨0, 0, none⟩⟩

/-- Second record of the C9 witness (2 of 2 lines hit). -/
def recW9b : LcovFileRecord := ⟨"a.ts", ⟨2, 2, none⟩, ⟨0, 0, none⟩, ⟨0, 0, none⟩⟩

/-- Witness for C9_last_write_wins: both witness records resolve to /ws/a.ts
and the lookup after conversion returns the second one. -/
theorem C9_last_write_wins_witness :
    mapGet ((convertToFileCoverage exW9 "/ws" [recW9a, recW9b]).2.fileRecordMap)
        (uriToString (Uri.file "/ws/a.ts")) = some recW9b :=
  C9_last_write_wins exW9 "/ws" [] [] [] recW9a recW9b "/ws/a.ts" (by decide) (by decide)
    (fun r hr => absurd hr (List.not_mem_nil r))

/-! ## Claim C2 -/

/-- Stored record matching the probe only by filename. -/
def recC2A : LcovFileRecord := ⟨"foo/util.ts", ⟨0, 0, none⟩, ⟨0, 0, none⟩, ⟨0, 0, none⟩⟩

/-- Stored record matching the probe by path suffix. -/
def recC2B : LcovFileRecord := ⟨"src/util.ts", ⟨0, 0, none⟩, ⟨0, 0, none⟩, ⟨0, 0, none⟩⟩

/-- A store holding the filename-only match before the suffix match. -/
def mC2 : List (String × LcovFileRecord) :=
  [("file:///elsewhere/foo/util.ts", recC2A), ("file:///elsewhere/src/util.ts", recC2B)]

/-- The probe uri for the C2 counterexample. -/
def uriC2 : Uri := ⟨"/ws/src/util.ts"⟩

/-- Claim C2, counterexample: the exact lookup misses, the store contains a
record (recC2B) whose file is a suffix of the probe path, yet getFileRecord
returns recC2A, which matches only by filename, because the scan is by entry
order with all strategies tried per entry, not by global strategy priority. -/
theorem C2_cex :
    mapGet mC2 (uriToString uriC2) = none ∧
    (∃ kv ∈ mC2, strEndsWith uriC2.fsPath kv.2.file = true) ∧
    (getFileRecord mC2 uriC2).1 = some recC2A ∧
    strEndsWith uriC2.fsPath recC2A.file = false := by
  refine ⟨by decide, ⟨("file:///elsewhere/src/util.ts", recC2B), by decide, by decide⟩,
    by decide, by decide⟩

/-- Claim C2, amended: when the exact identity lookup misses, getFileRecord
scans the stored entries in insertion order and returns the record of the
first entry matched by any of the four strategies (direct equality, suffix,
separator-normalized suffix, filename-only); strategy priority applies within
an entry, not globally across the store. -/
theorem C2_first_entry (m : List (String × LcovFileRecord)) (uri : Uri)
    (hmiss : mapGet m (uriToString uri) = none) :
    (getFileRecord m uri).1 =
      ((m.dropWhile (fun kv => !entryMatchStrategies uri.fsPath kv.2)).head?).map
        (fun kv => kv.2) := by
  have hd := find?_eq_head?_dropWhile m (fun kv => entryMatchStrategies uri.fsPath kv.2)
  simp only [] at hd
  unfold getFileRecord
  rw [hmiss]
  simp only []
  cases hf : m.find? (fun kv => entryMatchStrategies uri.fsPath kv.2) with
  | none =>
    rw [← hd, hf]
    rfl
  | some kv =>
    rw [← hd, hf]
    rfl

/-- Witness for C2_first_entry at the concrete store mC2 and probe uriC2. -/
theorem C2_first_entry_witness :
    (getFileRecord mC2 uriC2).1 =
      ((mC2.dropWhile (fun kv => !entryMatchStrategies uriC2.fsPath kv.2)).head?).map
        (fun kv => kv.2) :=
  C2_first_entry mC2 uriC2 (by decide)

/-! ## Detail synthesis (LcovParser.loadDetailedCoverageForRecord) -/

/-- Number.MAX_SAFE_INTEGER, used as the end column of whole-line ranges. -/
def maxSafeInteger : Int := 2 ^ 53 - 1

structure Position where
  line : Int
  character : Int
deriving DecidableEq, Repr

structure Range where
  startLine : Int
  startCharacter : Int
  endLine : Int
  endCharacter : Int
deriving DecidableEq, Repr

/-- vscode.BranchCoverage as constructed by the synthesizer. -/
structure BranchCoverage where
  executed : Bool
  position : Position
  label : String
deriving DecidableEq, Repr

/-- The JS number-or-boolean union stored in StatementCoverage executed. -/
inductive ExecutedValue where
  | count (n : Int)
  | flag (b : Bool)
deriving DecidableEq, Repr

/-- vscode.FileCoverageDetail: DeclarationCoverage or StatementCoverage. -/
inductive FileCoverageDetail where
  | declaration (name : String) (executed : Bool) (range : Range)
  | statement (executed : ExecutedValue) (range : Range) (branches : List BranchCoverage)
deriving DecidableEq, Repr

def FileCoverageDetail.isDeclaration : FileCoverageDetail → Bool
  | .declaration _ _ _ => true
  | .statement _ _ _ => false

def FileCoverageDetail.isStatement : FileCoverageDetail → Bool
  | .declaration _ _ _ => false
  | .statement _ _ _ => true

/-- Start line of the range of a detail item (0-based). -/
def detailStartLine : FileCoverageDetail → Int
  | .declaration _ _ r => r.startLine
  | .statement _ r _ => r.startLine

/-- The branch marks attached to a detail item (declarations carry none). -/
def attachedBranches : FileCoverageDetail → List BranchCoverage
  | .declaration _ _ _ => []
  | .statement _ _ bs => bs

/-- Branch mark built from one LCOV branch detail: executed iff taken > 0,
positioned at the start of its 0-based line, labelled with block and branch
ids and taken or not taken. -/
def mkBranchCoverage (b : LcovBranchDetail) : BranchCoverage :=
  ⟨if b.taken > 0 then true else false,
   ⟨b.line - 1, 0⟩,
   "Branch " ++ toString b.block ++ ":" ++ toString b.branch ++
     (if b.taken > 0 then " taken" else " not taken")⟩

/-- The branchesByLine grouping restricted to one line: the branch details
with that line number, in input order, as branch marks. -/
def branchesForLine (branchDetails : List LcovBranchDetail) (ln : Int) : List BranchCoverage :=
  (branchDetails.filter (fun b => b.line == ln)).map mkBranchCoverage

/-- The whole-line range used for declaration and statement items. -/
def lineRange (ln : Int) : Range :=
  ⟨ln - 1, 0, ln - 1, maxSafeInteger⟩

/-- The processedLines set: line numbers of function details with line > 0. -/
def claimedLines (funcDetails : List LcovFunctionDetail) : List Int :=
  funcDetails.filterMap (fun f => if f.line > 0 then some f.line else none)

/-- The function-declaration phase of loadDetailedCoverageForRecord: one
declaration item per function detail with line > 0, in input order. -/
def declarationItemsOf (funcDetails : List LcovFunctionDetail) : List FileCoverageDetail :=
  funcDetails.filterMap (fun f =>
    if f.line > 0 then
      some (FileCoverageDetail.declaration f.name
        (if f.hit > 0 then true else false) (lineRange f.line))
    else none)

/-- The line-detail phase of loadDetailedCoverageForRecord: one statement
item per line detail whose line was not claimed by a function declaration,
carrying the branch marks of its line (the processedLines skip). -/
def statementItemsOf (branchDetails : List LcovBranchDetail)
    (funcDetails : List LcovFunctionDetail) (lineDetails : List LcovLineDetail) :
    List FileCoverageDetail :=
  lineDetails.filterMap (fun l =>
    if (claimedLines funcDetails).contains l.line then none
    else
      some (FileCoverageDetail.statement
        (if l.hit > 0 then ExecutedValue.count l.hit else ExecutedValue.flag false)
        (lineRange l.line)
        (branchesForLine branchDetails l.line)))

/-- LcovParser.loadDetailedCoverageForRecord: empty when there are no line
details; otherwise the declaration items of the function details, followed by
the statement items of the unclaimed line details. -/
def loadDetailedCoverageForRecord (record : LcovFileRecord) : List FileCoverageDetail :=
  match record.lines.details with
  | none => []
  | some lineDetails =>
    if lineDetails.isEmpty then []
    else
      declarationItemsOf (record.functions.details.getD []) ++
      statementItemsOf (record.branches.details.getD [])
        (record.functions.details.getD []) lineDetails

/-- LcovParser.loadDetailedCoverage for a uri: exact map hit first, else the
flexible getFileRecord, else no detail; the map is threaded because
getFileRecord caches fallback hits under the exact uri string. -/
def loadDetailedCoverage (m : List (String × LcovFileRecord)) (uri : Uri) :
    List FileCoverageDetail × List (String × LcovFileRecord) :=
  match mapGet m (uriToString uri) with
  | some record => (loadDetailedCoverageForRecord record, m)
  | none =>
    let res := getFileRecord m uri
    match res.1 with
    | some record => (loadDetailedCoverageForRecord record, res.2)
    | none => ([], res.2)

/-- LcovParser.parse: the missing-file check and the external lcov-parse call
sit in a try/catch whose handler shows one error message and returns no
records.  The external parser outcome is a parameter (ok records or a thrown
message); the result pairs the returned records with the error messages shown
to the user. -/
def parse (ex : String → Bool) (lcovFilePath : String)
    (parserResult : Except String (List LcovFileRecord)) :
    List LcovFileRecord × List String :=
  if !(ex lcovFilePath) then
    ([], ["Error parsing LCOV file: LCOV file not found: " ++ lcovFilePath])
  else
    match parserResult with
    | Except.ok records => (records, [])
    | Except.error msg => ([], ["Error parsing LCOV file: " ++ msg])

/-! ## Membership lemmas for the synthesizer phases -/

theorem mem_declarationItemsOf {funcDetails : List LcovFunctionDetail}
    {d : FileCoverageDetail} (hd : d ∈ declarationItemsOf funcDetails) :
    ∃ f ∈ funcDetails, f.line > 0 ∧
      d = FileCoverageDetail.declaration f.name
        (if f.hit > 0 then true else false) (lineRange f.line) := by
  unfold declarationItemsOf at hd
  rw [List.mem_filterMap] at hd
  obtain ⟨f, hf, hfd⟩ := hd
  by_cases hl : f.line > 0
  · rw [if_pos hl] at hfd
    injection hfd with h
    exact ⟨f, hf, hl, h.symm⟩
  · rw [if_neg hl] at hfd
    cases hfd

theorem mem_statementItemsOf {branchDetails : List LcovBranchDetail}
    {funcDetails : List LcovFunctionDetail} {lineDetails : List LcovLineDetail}
    {s : FileCoverageDetail} (hs : s ∈ statementItemsOf branchDetails funcDetails lineDetails) :
    ∃ l ∈ lineDetails, (claimedLines funcDetails).contains l.line = false ∧
      s = FileCoverageDetail.statement
        (if l.hit > 0 then ExecutedValue.count l.hit else ExecutedValue.flag false)
        (lineRange l.line) (branchesForLine branchDetails l.line) := by
  unfold statementItemsOf at hs
  rw [List.mem_filterMap] at hs
  obtain ⟨l, hl, hls⟩ := hs
  by_cases hc : ((claimedLines funcDetails).contains l.line) = true
  · rw [if_pos hc] at hls
    cases hls
  · have hcf : (claimedLines funcDetails).contains l.line = false := by simpa using hc
    rw [if_neg hc] at hls
    injection hls with h
    exact ⟨l, hl, hcf, h.symm⟩

theorem mem_claimedLines {funcDetails : List LcovFunctionDetail}
    {f : LcovFunctionDetail} (hf : f ∈ funcDetails) (hl : f.line > 0) :
    f.line ∈ claimedLines funcDetails := by
  unfold claimedLines
  rw [List.mem_filterMap]
  exact ⟨f, hf, by rw [if_pos hl]⟩

theorem contains_of_mem {l : List Int} {a : Int} (h : a ∈ l) : l.contains a = true :=
  List.contains_iff_exists_mem_beq.mpr ⟨a, h, by simp⟩

/-! ## Claim C6 -/

/-- The round-trip record of claim C6: one line detail at line 5 with hit 3,
two branch details at line 5 (taken 0 and taken 2), no function details. -/
def recC6 : LcovFileRecord :=
  ⟨"c6.ts", ⟨1, 1, some [⟨5, 3⟩]⟩, ⟨0, 0, none⟩,
   ⟨2, 1, some [⟨5, 0, 0, 0⟩, ⟨5, 0, 1, 2⟩]⟩⟩

/-- Claim C6: synthesizing recC6 yields exactly one statement item, for line
5, with executed count 3 and exactly two branch marks, the first not executed
and the second executed. -/
theorem C6_roundtrip :
    loadDetailedCoverageForRecord recC6 =
      [FileCoverageDetail.statement (ExecutedValue.count 3) (lineRange 5)
        [⟨false, ⟨4, 0⟩, "Branch 0:0 not taken"⟩,
         ⟨true, ⟨4, 0⟩, "Branch 0:1 taken"⟩]] := by
  rfl

/-! ## Claim C5 -/

/-- Claim C5: the synthesizer output splits as declaration items followed by
statement items; a line claimed by a function detail with line > 0 yields no
statement item at that line; and no line carries both a declaration-derived
and a statement-derived item. -/
theorem C5_ordering (record : LcovFileRecord) :
    (∃ ds ss,
      loadDetailedCoverageForRecord record = ds ++ ss ∧
      (∀ d ∈ ds, d.isDeclaration = true) ∧
      (∀ s ∈ ss, s.isStatement = true)) ∧
    (∀ f ∈ record.functions.details.getD [], f.line > 0 →
      ∀ s ∈ loadDetailedCoverageForRecord record, s.isStatement = true →
        detailStartLine s ≠ f.line - 1) ∧
    (∀ d ∈ loadDetailedCoverageForRecord record,
      ∀ s ∈ loadDetailedCoverageForRecord record,
        d.isDeclaration = true → s.isStatement = true →
          detailStartLine d ≠ detailStartLine s) := by
  by_cases hdeg : loadDetailedCoverageForRecord record =
      declarationItemsOf (record.functions.details.getD []) ++
      statementItemsOf (record.branches.details.getD [])
        (record.functions.details.getD [])
        (record.lines.details.getD [])
  case neg =>
    have hout : loadDetailedCoverageForRecord record = [] := by
      unfold loadDetailedCoverageForRecord at hdeg ⊢
      cases hld : record.lines.details with
      | none => rfl
      | some lineDetails =>
        simp only [hld] at hdeg ⊢
        by_cases hemp : lineDetails.isEmpty = true
        · rw [if_pos hemp]
        · rw [if_neg hemp] at hdeg
          rw [Option.getD_some] at hdeg
          exact absurd rfl hdeg
    refine ⟨⟨[], [], by rw [hout]; rfl, ?_, ?_⟩, ?_, ?_⟩
    · intro d hd
      cases hd
    · intro s hs
      cases hs
    · intro f hf hfl s hs
      rw [hout] at hs
      cases hs
    · intro d hd
      rw [hout] at hd
      cases hd
  case pos =>
    refine ⟨⟨_, _, hdeg, ?_, ?_⟩, ?_, ?_⟩
    · intro d hd
      obtain ⟨f, hf, hfl, rfl⟩ := mem_declarationItemsOf hd
      rfl
    · intro s hs
      obtain ⟨l, hl, hc, rfl⟩ := mem_statementItemsOf hs
      rfl
    · intro f hf hfl s hs hstmt
      rw [hdeg] at hs
      rcases List.mem_append.mp hs with hds | hss
      · obtain ⟨g, hg, hgl, rfl⟩ := mem_declarationItemsOf hds
        simp [FileCoverageDetail.isStatement] at hstmt
      · obtain ⟨l, hl, hc, rfl⟩ := mem_statementItemsOf hss
        intro heq
        simp only [detailStartLine, lineRange] at heq
        have hlf : l.line = f.line := by omega
        have hmem : l.line ∈ claimedLines (record.functions.details.getD []) := by
          rw [hlf]
          exact mem_claimedLines hf hfl
        have hcont := contains_of_mem hmem
        rw [hc] at hcont
        exact absurd hcont (by decide)
    · intro d hd s hs hdecl hstmt
      rw [hdeg] at hd hs
      rcases List.mem_append.mp hd with hdd | hds
      · obtain ⟨f, hf, hfl, rfl⟩ := mem_declarationItemsOf hdd
        rcases List.mem_append.mp hs with hsd | hss
        · obtain ⟨g, hg, hgl, rfl⟩ := mem_declarationItemsOf hsd
          simp [FileCoverageDetail.isStatement] at hstmt
        · obtain ⟨l, hl, hc, rfl⟩ := mem_statementItemsOf hss
          intro heq
          simp only [detailStartLine, lineRange] at heq
          have hlf : l.line = f.line := by omega
          have hmem : l.line ∈ claimedLines (record.functions.details.getD []) := by
            rw [hlf]
            exact mem_claimedLines hf hfl
          have hcont := contains_of_mem hmem
          rw [hc] at hcont
          exact absurd hcont (by decide)
      · obtain ⟨l, hl, hc, rfl⟩ := mem_statementItemsOf hds
        simp [FileCoverageDetail.isDeclaration] at hdecl

/-! ## Claim C7 -/

/-- Claim C7: a detail request never produces an error value; when the line
details are absent or empty the synthesizer returns the empty sequence, and
when the lookup for a uri misses the detail response is the empty sequence. -/
theorem C7_no_detail_empty (record : LcovFileRecord)
    (m : List (String × LcovFileRecord)) (uri : Uri) :
    ((record.lines.details = none ∨ record.lines.details = some []) →
      loadDetailedCoverageForRecord record = []) ∧
    ((getFileRecord m uri).1 = none → (loadDetailedCoverage m uri).1 = []) := by
  constructor
  · intro h
    rcases h with h | h
    · simp [loadDetailedCoverageForRecord, h]
    · simp [loadDetailedCoverageForRecord, h]
  · intro h
    have hmiss : mapGet m (uriToString uri) = none := by
      cases hg : mapGet m (uriToString uri) with
      | none => rfl
      | some r =>
        unfold getFileRecord at h
        rw [hg] at h
        simp at h
    simp only [loadDetailedCoverage, hmiss]
    rw [h]

/-- A summary-only record without line details, for the C7 witness. -/
def recW7 : LcovFileRecord := ⟨"w7.ts", ⟨3, 1, none⟩, ⟨0, 0, none⟩, ⟨0, 0, none⟩⟩

/-- The probe uri for the C7 witness (the empty store misses it). -/
def uriW7 : Uri := ⟨"/ws/none.ts"⟩

/-- Witness for C7_no_detail_empty: the detail-less record synthesizes to the
empty sequence, and a lookup miss on the empty store answers the empty
sequence. -/
theorem C7_no_detail_empty_witness :
    loadDetailedCoverageForRecord recW7 = [] ∧ (loadDetailedCoverage [] uriW7).1 = [] :=
  ⟨(C7_no_detail_empty recW7 [] uriW7).1 (Or.inl rfl),
   (C7_no_detail_empty recW7 [] uriW7).2 (by decide)⟩

/-! ## Claim C8 -/

/-- Claim C8: when the load fails (the LCOV file does not exist, or the
external parser throws), parse returns zero records together with one
user-visible error message; the failure is never propagated as an
exception. -/
theorem C8_parse_failure (ex : String → Bool) (p : String)
    (res : Except String (List LcovFileRecord))
    (hfail : ex p = false ∨ ∃ msg, res = Except.error msg) :
    (parse ex p res).1 = [] ∧ (parse ex p res).2 ≠ [] := by
  rcases hfail with h | ⟨msg, h⟩
  · unfold parse
    rw [h]
    simp
  · unfold parse
    rw [h]
    by_cases hex : (!(ex p)) = true
    · simp [hex]
    · have hex' : (!(ex p)) = false := by simpa using hex
      simp [hex']

/-- Witness for C8_parse_failure at a missing file path. -/
theorem C8_parse_failure_witness :
    (parse exNone "/coverage/lcov.info" (Except.ok [])).1 = [] ∧
    (parse exNone "/coverage/lcov.info" (Except.ok [])).2 ≠ [] :=
  C8_parse_failure exNone "/coverage/lcov.info" (Except.ok []) (Or.inl rfl)

/-! ## Claim C10 -/

/-- Claim C10: branch details on declaration-claimed lines are dropped: if
some function detail with line > 0 claims the line of a branch detail b, then
no branch mark anywhere in the synthesized output sits at the 0-based line of
b, because marks are attached only to statement items and the claimed line
emits no statement item. -/
theorem C10_claimed_branch_dropped (record : LcovFileRecord) (b : LcovBranchDetail)
    (hb : b ∈ record.branches.details.getD [])
    (hclaimed : ∃ f ∈ record.functions.details.getD [], f.line > 0 ∧ f.line = b.line) :
    ((loadDetailedCoverageForRecord record).all (fun d =>
      (attachedBranches d).all (fun bc => bc.position.line != b.line - 1))) = true := by
  obtain ⟨f, hf, hfl, hfb⟩ := hclaimed
  rw [List.all_eq_true]
  intro d hd
  by_cases hdeg : loadDetailedCoverageForRecord record =
      declarationItemsOf (record.functions.details.getD []) ++
      statementItemsOf (record.branches.details.getD [])
        (record.functions.details.getD [])
        (record.lines.details.getD [])
  case neg =>
    have hout : loadDetailedCoverageForRecord record = [] := by
      unfold loadDetailedCoverageForRecord at hdeg ⊢
      cases hld : record.lines.details with
      | none => rfl
      | some lineDetails =>
        simp only [hld] at hdeg ⊢
        by_cases hemp : lineDetails.isEmpty = true
        · rw [if_pos hemp]
        · rw [if_neg hemp] at hdeg
          rw [Option.getD_some] at hdeg
          exact absurd rfl hdeg
    rw [hout] at hd
    cases hd
  case pos =>
    rw [hdeg] at hd
    rcases List.mem_append.mp hd with hdd | hds
    · obtain ⟨g, hg, hgl, rfl⟩ := mem_declarationItemsOf hdd
      rfl
    · obtain ⟨l, hl, hc, rfl⟩ := mem_statementItemsOf hds
      simp only [attachedBranches]
      rw [List.all_eq_true]
      intro bc hbc
      unfold branchesForLine at hbc
      rw [List.mem_map] at hbc
      obtain ⟨b2, hb2, rfl⟩ := hbc
      rw [List.mem_filter] at hb2
      have hb2l : b2.line = l.line := by simpa using hb2.2
      have hll : l.line ≠ b.line := by
        intro he
        have hmem : l.line ∈ claimedLines (record.functions.details.getD []) := by
          rw [he, ← hfb]
          exact mem_claimedLines hf hfl
        have hcont := contains_of_mem hmem
        rw [hc] at hcont
        exact absurd hcont (by decide)
      simp only [mkBranchCoverage]
      rw [bne_iff_ne]
      intro he
      exact hll (by omega)

/-- The witness record for C10: a function at line 5 claims the line of the
only branch detail; line 5 emits a declaration and line 6 a statement. -/
def recW10 : LcovFileRecord :=
  ⟨"w10.ts", ⟨2, 2, some [⟨5, 1⟩, ⟨6, 1⟩]⟩,
   ⟨1, 1, some [⟨"f", 5, 1⟩]⟩,
   ⟨1, 1, some [⟨5, 0, 0, 1⟩]⟩⟩

/-- Witness for C10_claimed_branch_dropped at the concrete record recW10. -/
theorem C10_claimed_branch_dropped_witness :
    ((loadDetailedCoverageForRecord recW10).all (fun d =>
      (attachedBranches d).all (fun bc =>
        bc.position.line != (⟨5, 0, 0, 1⟩ : LcovBranchDetail).line - 1))) = true :=
  C10_claimed_branch_dropped recW10 ⟨5, 0, 0, 1⟩ (by decide)
    ⟨⟨"f", 5, 1⟩, by decide, by decide, by decide⟩

/-! ## Remaining witnesses -/

/-- Witness for C1_totals at the concrete record list of one record. -/
theorem C1_totals_witness :
    (calculateCoverageStats [recC1]).totalLines
        = ([recC1].map (fun r => r.lines.found)).sum ∧
    (calculateCoverageStats [recC1]).coveredLines
        = ([recC1].map (fun r => r.lines.hit)).sum :=
  C1_totals [recC1]

/-- Witness for C4_resolver_priority at a concrete resolution request. -/
theorem C4_resolver_priority_witness :
    resolveFilePath exW9 "/ws" "a.ts" = resolveFilePathSpec exW9 "/ws" "a.ts" :=
  C4_resolver_priority exW9 "/ws" "a.ts"

/-- Witness for C5_ordering: the split of the output of the concrete record
recW10 into declarations followed by statements. -/
theorem C5_ordering_witness :
    ∃ ds ss,
      loadDetailedCoverageForRecord recW10 = ds ++ ss ∧
      (∀ d ∈ ds, d.isDeclaration = true) ∧
      (∀ s ∈ ss, s.isStatement = true) :=
  (C5_ordering recW10).1
